import Mathlib

/-!
Shallow embedding of the minimc wire-format serialization layer
(src/lib.rs, src/types.rs) and proofs about its codecs.

Modelling conventions:
* A byte stream is a `List Nat` whose elements are the byte values
  (each `< 256` when produced by the code; theorems over arbitrary
  streams carry that bound as a hypothesis where it matters).
* A writer is modelled by the list of bytes it receives; a reader is
  modelled by state passing: a read function consumes a prefix of the
  source list and returns the remaining suffix.  Reading past the end
  of the list models the reader's stream error.
* Machine integers are `Nat` bit patterns with explicit `% 2 ^ w`
  where the Rust code truncates; signed values are `Int` connected to
  their two's-complement patterns.  `f32`/`f64` are represented by
  their 32/64-bit patterns, which is exact for `to_be_bytes` /
  `from_be_bytes`.
-/

set_option maxRecDepth 8192

namespace Minimc

/-- Big-endian byte string of the low `w` bytes of `v`: model of Rust
`to_be_bytes` on a `w`-byte integer whose bit pattern is `v`. -/
def toBeBytes : Nat → Nat → List Nat
  | 0, _ => []
  | w + 1, v => toBeBytes w (v / 256) ++ [v % 256]

/-- Model of Rust `from_be_bytes`: fold the bytes most-significant first. -/
def fromBeBytes (bs : List Nat) : Nat :=
  bs.foldl (fun acc b => acc * 256 + b) 0

/-- The reader error used whenever the source cannot supply the
requested bytes (`McReader::read` on an exhausted stream). -/
def eofMsg : String := "read past end"

/-- Model of the `int_impl!` read: fill a `w`-byte buffer from the
reader, then `from_be_bytes`.  Consumes exactly `w` bytes or fails. -/
def intRead (w : Nat) (src : List Nat) : Except String (Nat × List Nat) :=
  if w ≤ src.length then .ok (fromBeBytes (src.take w), src.drop w)
  else .error eofMsg

/-- Model of the `int_impl!` write: emit the big-endian bytes. -/
def intWrite (w v : Nat) : List Nat := toBeBytes w v

/-- Two's-complement `8*w`-bit pattern of the signed value `z`
(the bit pattern Rust's signed `to_be_bytes` serializes). -/
def toTwos (w : Nat) (z : Int) : Nat := (z % ((2 : Int) ^ (8 * w))).toNat

/-- Signed value of an `8*w`-bit two's-complement pattern
(the value Rust's signed `from_be_bytes` reconstructs). -/
def fromTwos (w : Nat) (n : Nat) : Int :=
  if n < 2 ^ (8 * w - 1) then (n : Int) else (n : Int) - 2 ^ (8 * w)

/-- `int_impl!` write for a signed type of `w` bytes. -/
def sIntWrite (w : Nat) (z : Int) : List Nat := toBeBytes w (toTwos w z)

/-- `int_impl!` read for a signed type of `w` bytes. -/
def sIntRead (w : Nat) (src : List Nat) : Except String (Int × List Nat) :=
  match intRead w src with
  | .error e => .error e
  | .ok (n, rest) => .ok (fromTwos w n, rest)

/-- Model of `McProtoSelf for bool`, `write`: the source emits
`u8::from(!self)`, i.e. `0x00` for `true` and `0x01` for `false`. -/
def boolWrite (b : Bool) : List Nat := [if b then 0 else 1]

/-- Model of `McProtoSelf for bool`, `read`: `0x00 => false`,
`0x01 => true`, anything else is the decode error. -/
def boolRead : List Nat → Except String (Bool × List Nat)
  | [] => .error eofMsg
  | b :: rest =>
    match b with
    | 0 => .ok (false, rest)
    | 1 => .ok (true, rest)
    | _ => .error "bad boolean value"

/-- Model of `McProtoSelf for u8`, `write`. -/
def u8Write (v : Nat) : List Nat := [v]

/-- Model of `McProtoSelf for u8`, `read`. -/
def u8Read : List Nat → Except String (Nat × List Nat)
  | [] => .error eofMsg
  | b :: rest => .ok (b, rest)

/-- Model of `McProto<u32> for VarNum`, `write`.  The loop guard is the
source's `value & !u32::from(SEGMENT_BITS) == 0`; the terminating
branch is the source's `value.write(writer)`, which dispatches to the
`u32` fixed-width codec and therefore emits four big-endian bytes. -/
def varnumWriteU32 (v : Nat) : List Nat :=
  if h : v &&& 0xFFFFFF80 = 0 then toBeBytes 4 v
  else (((v % 256) &&& 127) ||| 128) :: varnumWriteU32 (v >>> 7)
termination_by v
decreasing_by
  have hv : v ≠ 0 := by
    intro h0
    exact h (by subst h0; decide)
  simp only [Nat.shiftRight_eq_div_pow]
  exact Nat.div_lt_self (Nat.pos_of_ne_zero hv) (by norm_num)

/-- Model of `McProto<u64> for VarNum`, `write`; the terminating branch
dispatches to the `u64` fixed-width codec (eight big-endian bytes). -/
def varnumWriteU64 (v : Nat) : List Nat :=
  if h : v &&& 0xFFFFFFFFFFFFFF80 = 0 then toBeBytes 8 v
  else (((v % 256) &&& 127) ||| 128) :: varnumWriteU64 (v >>> 7)
termination_by v
decreasing_by
  have hv : v ≠ 0 := by
    intro h0
    exact h (by subst h0; decide)
  simp only [Nat.shiftRight_eq_div_pow]
  exact Nat.div_lt_self (Nat.pos_of_ne_zero hv) (by norm_num)

/-- Loop of `McProto<u32> for VarNum`, `read`: accumulate 7-bit groups,
stop on a clear continuation bit, fail once the bit offset reaches 32.
The shift result is truncated to 32 bits as in the `u32` arithmetic of
the source. -/
def varnumReadLoop32 : List Nat → Nat → Nat → Except String (Nat × List Nat)
  | [], _, _ => .error eofMsg
  | b :: rest, value, position =>
    let v2 := value ||| (((b &&& 127) <<< position) % 2 ^ 32)
    if b &&& 128 = 0 then .ok (v2, rest)
    else if 32 ≤ position + 7 then .error "VarInt is too large"
    else varnumReadLoop32 rest v2 (position + 7)

/-- Model of `McProto<u32> for VarNum`, `read`. -/
def varnumReadU32 (src : List Nat) : Except String (Nat × List Nat) :=
  varnumReadLoop32 src 0 0

/-- Loop of `McProto<u64> for VarNum`, `read`. -/
def varnumReadLoop64 : List Nat → Nat → Nat → Except String (Nat × List Nat)
  | [], _, _ => .error eofMsg
  | b :: rest, value, position =>
    let v2 := value ||| (((b &&& 127) <<< position) % 2 ^ 64)
    if b &&& 128 = 0 then .ok (v2, rest)
    else if 64 ≤ position + 7 then .error "VarLong is too large"
    else varnumReadLoop64 rest v2 (position + 7)

/-- Model of `McProto<u64> for VarNum`, `read`. -/
def varnumReadU64 (src : List Nat) : Except String (Nat × List Nat) :=
  varnumReadLoop64 src 0 0

/-- Model of `types::Length`: a strictly positive length
(`NonZero<usize>`). -/
structure Length where
  /-- The wrapped bound. -/
  val : Nat
  /-- Strict positivity, the `NonZero` invariant. -/
  pos : 0 < val

/-- UTF-16 code units contributed by one scalar (`encode_utf16`):
two for a supplementary-plane scalar, one otherwise. -/
def utf16LenChar (c : Nat) : Nat := if c < 0x10000 then 1 else 2

/-- Model of `s.encode_utf16().count()`. -/
def utf16Len (s : List Nat) : Nat :=
  s.foldr (fun c acc => utf16LenChar c + acc) 0

/-- UTF-8 bytes of one scalar (the bytes `str::bytes` yields for it). -/
def utf8EncodeChar (c : Nat) : List Nat :=
  if c < 0x80 then [c]
  else if c < 0x800 then [0xC0 + c / 0x40, 0x80 + c % 0x40]
  else if c < 0x10000 then
    [0xE0 + c / 0x1000, 0x80 + c / 0x40 % 0x40, 0x80 + c % 0x40]
  else
    [0xF0 + c / 0x40000, 0x80 + c / 0x1000 % 0x40, 0x80 + c / 0x40 % 0x40,
      0x80 + c % 0x40]

/-- Model of `self.bytes()`: the UTF-8 encoding of the scalars. -/
def utf8Encode (s : List Nat) : List Nat :=
  s.foldr (fun c acc => utf8EncodeChar c ++ acc) []

/-- Whether `b` is a UTF-8 continuation byte (`0x80..=0xBF`). -/
def isCont (b : Nat) : Prop := 0x80 ≤ b ∧ b ≤ 0xBF

instance (b : Nat) : Decidable (isCont b) := by
  unfold isCont; infer_instance

/-- Decode one scalar from the front of a byte list, following the
Unicode well-formed UTF-8 byte ranges that Rust's `str::from_utf8`
enforces (overlong forms and surrogates rejected). -/
def utf8DecodeOne : List Nat → Option (Nat × List Nat)
  | [] => none
  | b :: rest =>
    if b < 0x80 then some (b, rest)
    else if 0xC2 ≤ b ∧ b ≤ 0xDF then
      match rest with
      | c1 :: r =>
        if isCont c1 then some ((b - 0xC0) * 0x40 + (c1 - 0x80), r) else none
      | [] => none
    else if 0xE0 ≤ b ∧ b ≤ 0xEF then
      match rest with
      | c1 :: c2 :: r =>
        if (if b = 0xE0 then 0xA0 ≤ c1 ∧ c1 ≤ 0xBF
            else if b = 0xED then 0x80 ≤ c1 ∧ c1 ≤ 0x9F
            else isCont c1) ∧ isCont c2 then
          some ((b - 0xE0) * 0x1000 + (c1 - 0x80) * 0x40 + (c2 - 0x80), r)
        else none
      | _ => none
    else if 0xF0 ≤ b ∧ b ≤ 0xF4 then
      match rest with
      | c1 :: c2 :: c3 :: r =>
        if (if b = 0xF0 then 0x90 ≤ c1 ∧ c1 ≤ 0xBF
            else if b = 0xF4 then 0x80 ≤ c1 ∧ c1 ≤ 0x8F
            else isCont c1) ∧ isCont c2 ∧ isCont c3 then
          some ((b - 0xF0) * 0x40000 + (c1 - 0x80) * 0x1000 +
            (c2 - 0x80) * 0x40 + (c3 - 0x80), r)
        else none
      | _ => none
    else none

/-- Fuelled full-buffer UTF-8 decode; `fuel` bounds the number of
scalars, so `bs.length` is always enough. -/
def utf8DecodeAux : Nat → List Nat → Option (List Nat)
  | _, [] => some []
  | 0, _ :: _ => none
  | fuel + 1, b :: r =>
    match utf8DecodeOne (b :: r) with
    | none => none
    | some (c, rest) => (utf8DecodeAux fuel rest).map (fun s => c :: s)

/-- Model of `str::from_utf8`: `some` scalars iff the bytes are
well-formed UTF-8. -/
def utf8Decode (bs : List Nat) : Option (List Nat) :=
  utf8DecodeAux bs.length bs

/-- Model of `McProtoSelf for String`, `write`: a `VarNum`-written
UTF-16 code-unit count (`as u32`), then the UTF-8 payload bytes. -/
def stringWrite (s : List Nat) : List Nat :=
  varnumWriteU32 (utf16Len s % 2 ^ 32) ++ utf8Encode s

/-- Accumulation loop of `McProtoSelf for String`, `read`: while the
running UTF-16 count is below the target, read a byte, append it, and
if the whole buffer now parses as UTF-8, recompute the count. -/
def stringReadLoop (src out : List Nat) (curr len : Nat) :
    Except String (List Nat × List Nat) :=
  if curr < len then
    match src with
    | [] => .error eofMsg
    | b :: rest =>
      let out2 := out ++ [b]
      let curr2 :=
        match utf8Decode out2 with
        | some s => utf16Len s % 2 ^ 32
        | none => curr
      stringReadLoop rest out2 curr2 len
  else .ok (out, src)
termination_by src.length
decreasing_by simp

/-- The message standing for the `.unwrap()` panic at the end of
`String::read` (the case the loop is supposed to make unreachable). -/
def unwrapPanicMsg : String := "String::from_utf8 unwrap panicked"

/-- Model of `McProtoSelf for String`, `read`: decode the VarNum
length, run the accumulation loop, convert the buffer.  The `Length`
metadata is bound by the signature and never used. -/
def stringRead (_meta : Length) (src : List Nat) :
    Except String (List Nat × List Nat) :=
  match varnumReadU32 src with
  | .error e => .error e
  | .ok (len, rest) =>
    match stringReadLoop rest [] 0 len with
    | .error e => .error e
    | .ok (out, rest2) =>
      match utf8Decode out with
      | some s => .ok (s, rest2)
      | none => .error unwrapPanicMsg

/-- `VarNum` u32 read-loop over an unbounded source; returns the value
and the next unread position. -/
def streamVarnumLoop32 (f : Nat → Nat) (i value position : Nat) :
    Except String (Nat × Nat) :=
  let b := f i
  let v2 := value ||| (((b &&& 127) <<< position) % 2 ^ 32)
  if b &&& 128 = 0 then .ok (v2, i + 1)
  else if 32 ≤ position + 7 then .error "VarInt is too large"
  else streamVarnumLoop32 f (i + 1) v2 (position + 7)
termination_by 32 - position
decreasing_by omega

/-- `VarNum` u32 read over an unbounded source starting at position `i`. -/
def streamVarnumReadU32 (f : Nat → Nat) (i : Nat) : Except String (Nat × Nat) :=
  streamVarnumLoop32 f i 0 0

/-- The `String::read` accumulation loop over an unbounded source,
instrumented with fuel: `none` means the loop is still running after
`fuel` iterations (it has neither returned nor erred — over an
unbounded source the byte read always succeeds, so the only exit is
the length check). -/
def streamStringLoop (f : Nat → Nat) : Nat → Nat → List Nat → Nat → Nat →
    Option (List Nat × Nat)
  | 0, _, _, _, _ => none
  | fuel + 1, i, out, curr, len =>
    if curr < len then
      let b := f i
      let out2 := out ++ [b]
      let curr2 :=
        match utf8Decode out2 with
        | some s => utf16Len s % 2 ^ 32
        | none => curr
      streamStringLoop f fuel (i + 1) out2 curr2 len
    else some (out, i)

/-- A source whose first byte is the VarNum length prefix `0x01` and
which then supplies the continuation byte `0x80` forever — bytes that
never begin a well-formed UTF-8 sequence. -/
def badStream : Nat → Nat := fun i => if i = 0 then 1 else 128

/-- The scalars of the test string from the spec: "héllo"
(5 Unicode scalars, 5 UTF-16 units, 6 UTF-8 bytes). -/
def helloStr : List Nat := [104, 233, 108, 108, 111]

/-! ## Helper lemmas -/

/-- A byte with its top bit set keeps it under `&&& 128`. -/
theorem land_cont : ∀ b, b < 256 → 128 ≤ b → b &&& 128 = 128 := by decide

/-- A byte below `128` has a clear continuation bit. -/
theorem land_clear : ∀ b, b < 128 → b &&& 128 = 0 := by decide

/-- Masking with the segment bits is the identity below `128`. -/
theorem land_low : ∀ b, b < 128 → b &&& 127 = b := by decide

/-- `toBeBytes w` always yields exactly `w` bytes. -/
theorem toBeBytes_length (w : Nat) : ∀ v, (toBeBytes w v).length = w := by
  induction w with
  | zero => intro v; rfl
  | succ n ih => intro v; simp [toBeBytes, ih]

/-- Folding the big-endian bytes back, with any accumulator. -/
theorem fromBe_aux (w : Nat) : ∀ v acc, v < 256 ^ w →
    (toBeBytes w v).foldl (fun a b => a * 256 + b) acc = acc * 256 ^ w + v := by
  induction w with
  | zero =>
    intro v acc hv
    simp [toBeBytes]
    omega
  | succ n ih =>
    intro v acc hv
    have hdiv : v / 256 < 256 ^ n := by
      rw [Nat.div_lt_iff_lt_mul (by norm_num)]
      calc v < 256 ^ (n + 1) := hv
        _ = 256 ^ n * 256 := by rw [pow_succ]
    have h256 : 256 * (v / 256) + v % 256 = v := Nat.div_add_mod v 256
    rw [toBeBytes, List.foldl_append, ih (v / 256) acc hdiv]
    calc (acc * 256 ^ n + v / 256) * 256 + v % 256
        = acc * (256 ^ n * 256) + (256 * (v / 256) + v % 256) := by ring
      _ = acc * 256 ^ (n + 1) + v := by rw [h256, pow_succ]

/-- Reading back the big-endian bytes of `v` recovers `v` whenever `v`
fits in `w` bytes. -/
theorem fromBe_toBe (w v : Nat) (hv : v < 256 ^ w) :
    fromBeBytes (toBeBytes w v) = v := by
  unfold fromBeBytes
  rw [fromBe_aux w v 0 hv]
  simp

/-- Byte `i` of the big-endian encoding is digit `w - 1 - i` of `v` in
base 256: the most significant digit comes first. -/
theorem toBeBytes_getElem (w : Nat) : ∀ v i, i < w →
    (toBeBytes w v)[i]? = some (v / 256 ^ (w - 1 - i) % 256) := by
  induction w with
  | zero => intro v i h; exact absurd h (Nat.not_lt_zero i)
  | succ n ih =>
    intro v i h
    rw [toBeBytes]
    rcases Nat.lt_or_ge i n with hi | hi
    · rw [List.getElem?_append, if_pos (by rw [toBeBytes_length]; exact hi),
        ih (v / 256) i hi]
      have he : 256 * 256 ^ (n - 1 - i) = 256 ^ (n - i) := by
        rw [← pow_succ']
        congr 1
        omega
      rw [Nat.div_div_eq_div_mul, he, Nat.add_sub_cancel]
    · have hin : i = n := by omega
      subst hin
      rw [List.getElem?_append, if_neg (by rw [toBeBytes_length]; omega),
        toBeBytes_length]
      simp

/-- Round trip through the two's-complement pattern for any in-range
signed value. -/
theorem fromTwos_toTwos (w : Nat) (z : Int) (hw : 0 < w)
    (h1 : -(2 ^ (8 * w - 1)) ≤ z) (h2 : z < 2 ^ (8 * w - 1)) :
    fromTwos w (toTwos w z) = z := by
  have hcast : (((2 : Nat) ^ (8 * w - 1) : Nat) : Int) = (2 : Int) ^ (8 * w - 1) := by
    push_cast
    ring
  have hM : ((2 : Int) ^ (8 * w)) = 2 * 2 ^ (8 * w - 1) := by
    rw [← pow_succ']
    congr 1
    omega
  have hMpos : (0 : Int) < 2 ^ (8 * w) := by positivity
  have hHpos : (0 : Int) < 2 ^ (8 * w - 1) := by positivity
  unfold toTwos fromTwos
  rcases le_or_lt 0 z with hz | hz
  · have hmod : z % (2 : Int) ^ (8 * w) = z := Int.emod_eq_of_lt hz (by omega)
    rw [hmod]
    split <;> omega
  · have hmod : z % (2 : Int) ^ (8 * w) = z + 2 ^ (8 * w) := by
      have step : z % (2 : Int) ^ (8 * w) = (z + 2 ^ (8 * w) * 1) % (2 : Int) ^ (8 * w) := by
        rw [Int.add_mul_emod_self_left]
      rw [step, mul_one, Int.emod_eq_of_lt (by omega) (by omega)]
    rw [hmod]
    split <;> omega

/-- Terminating branch of `varnumWriteU32`: the source's
`value.write(writer)`, the four-byte fixed-width write. -/
theorem varnumWriteU32_stop (v : Nat) (h : v &&& 0xFFFFFF80 = 0) :
    varnumWriteU32 v = toBeBytes 4 v := by
  unfold varnumWriteU32
  rw [dif_pos h]

/-- Continuation branch of `varnumWriteU32`. -/
theorem varnumWriteU32_go (v : Nat) (h : ¬v &&& 0xFFFFFF80 = 0) :
    varnumWriteU32 v =
      (((v % 256) &&& 127) ||| 128) :: varnumWriteU32 (v >>> 7) := by
  conv_lhs => rw [varnumWriteU32.eq_def]
  rw [dif_neg h]

/-- Terminating branch of `varnumWriteU64`: the eight-byte
fixed-width write. -/
theorem varnumWriteU64_stop (v : Nat) (h : v &&& 0xFFFFFFFFFFFFFF80 = 0) :
    varnumWriteU64 v = toBeBytes 8 v := by
  unfold varnumWriteU64
  rw [dif_pos h]

/-- The u32 read loop consumes at least one and, starting from bit
offset `pos`, at most `(39 - pos) / 7` bytes when it returns a value. -/
theorem varnumLoop32_ok_drop : ∀ (src : List Nat) (value pos val : Nat)
    (rest : List Nat), pos < 32 →
    varnumReadLoop32 src value pos = .ok (val, rest) →
    ∃ k, 1 ≤ k ∧ rest = src.drop k ∧ pos + 7 * (k - 1) < 32 := by
  intro src
  induction src with
  | nil =>
    intro value pos val rest hp h
    simp [varnumReadLoop32] at h
  | cons b tl ih =>
    intro value pos val rest hp h
    simp only [varnumReadLoop32] at h
    split at h
    · simp only [Except.ok.injEq, Prod.mk.injEq] at h
      exact ⟨1, Nat.le_refl 1, by simp [h.2.symm], by omega⟩
    · split at h
      · simp at h
      · obtain ⟨k, hk1, hrest, hb⟩ := ih _ (pos + 7) val rest (by omega) h
        refine ⟨k + 1, by omega, ?_, by omega⟩
        simpa [List.drop_succ_cons] using hrest

/-- The u64 read loop consumes at least one and at most
`(69 - pos) / 7` bytes when it returns a value. -/
theorem varnumLoop64_ok_drop : ∀ (src : List Nat) (value pos val : Nat)
    (rest : List Nat), pos < 64 →
    varnumReadLoop64 src value pos = .ok (val, rest) →
    ∃ k, 1 ≤ k ∧ rest = src.drop k ∧ pos + 7 * (k - 1) < 64 := by
  intro src
  induction src with
  | nil =>
    intro value pos val rest hp h
    simp [varnumReadLoop64] at h
  | cons b tl ih =>
    intro value pos val rest hp h
    simp only [varnumReadLoop64] at h
    split at h
    · simp only [Except.ok.injEq, Prod.mk.injEq] at h
      exact ⟨1, Nat.le_refl 1, by simp [h.2.symm], by omega⟩
    · split at h
      · simp at h
      · obtain ⟨k, hk1, hrest, hb⟩ := ih _ (pos + 7) val rest (by omega) h
        refine ⟨k + 1, by omega, ?_, by omega⟩
        simpa [List.drop_succ_cons] using hrest

/-- If a prefix of continuation bytes alone pushes the bit offset to
the width, the u32 read loop fails with the overflow error without
ever looking past that prefix. -/
theorem varnumLoop32_cont_err : ∀ (pre : List Nat) (rest : List Nat)
    (value pos : Nat), pos < 32 →
    (∀ b ∈ pre, 128 ≤ b ∧ b < 256) → 32 ≤ pos + 7 * pre.length →
    varnumReadLoop32 (pre ++ rest) value pos = .error "VarInt is too large" := by
  intro pre
  induction pre with
  | nil =>
    intro rest value pos hp _ hlen
    simp at hlen
    omega
  | cons b tl ih =>
    intro rest value pos hp hb hlen
    have hcont := land_cont b (hb b (by simp)).2 (hb b (by simp)).1
    simp only [List.cons_append, varnumReadLoop32, hcont]
    rw [if_neg (by norm_num)]
    by_cases hstop : 32 ≤ pos + 7
    · rw [if_pos hstop]
    · rw [if_neg hstop]
      exact ih rest _ (pos + 7) (by omega) (fun x hx => hb x (by simp [hx]))
        (by simp at hlen ⊢; omega)

/-- If a prefix of continuation bytes alone pushes the bit offset to
the width, the u64 read loop fails with the overflow error. -/
theorem varnumLoop64_cont_err : ∀ (pre : List Nat) (rest : List Nat)
    (value pos : Nat), pos < 64 →
    (∀ b ∈ pre, 128 ≤ b ∧ b < 256) → 64 ≤ pos + 7 * pre.length →
    varnumReadLoop64 (pre ++ rest) value pos = .error "VarLong is too large" := by
  intro pre
  induction pre with
  | nil =>
    intro rest value pos hp _ hlen
    simp at hlen
    omega
  | cons b tl ih =>
    intro rest value pos hp hb hlen
    have hcont := land_cont b (hb b (by simp)).2 (hb b (by simp)).1
    simp only [List.cons_append, varnumReadLoop64, hcont]
    rw [if_neg (by norm_num)]
    by_cases hstop : 64 ≤ pos + 7
    · rw [if_pos hstop]
    · rw [if_neg hstop]
      exact ih rest _ (pos + 7) (by omega) (fun x hx => hb x (by simp [hx]))
        (by simp at hlen ⊢; omega)

/-- The text read loop returns at once when the running count has
already reached the target. -/
theorem stringReadLoop_exit (src out : List Nat) (curr len : Nat)
    (h : ¬curr < len) : stringReadLoop src out curr len = .ok (out, src) := by
  unfold stringReadLoop
  rw [if_neg h]

/-- Loop invariant of `String::read`: if the running count is still
short of the target, or the buffer already parses as UTF-8, then any
buffer the loop returns parses as UTF-8. -/
theorem stringReadLoop_inv : ∀ (src out : List Nat) (curr len : Nat)
    (res rest : List Nat), (curr < len ∨ (utf8Decode out).isSome) →
    stringReadLoop src out curr len = .ok (res, rest) →
    (utf8Decode res).isSome := by
  intro src
  induction src with
  | nil =>
    intro out curr len res rest hinv h
    by_cases hc : curr < len
    · unfold stringReadLoop at h
      rw [if_pos hc] at h
      simp at h
    · rw [stringReadLoop_exit _ _ _ _ hc] at h
      simp only [Except.ok.injEq, Prod.mk.injEq] at h
      rcases hinv with hlt | hs
      · exact absurd hlt hc
      · rw [← h.1]
        exact hs
  | cons b tl ih =>
    intro out curr len res rest hinv h
    by_cases hc : curr < len
    · simp only [stringReadLoop] at h
      rw [if_pos hc] at h
      apply ih (out ++ [b]) _ len res rest ?_ h
      cases hdec : utf8Decode (out ++ [b]) with
      | some s =>
        right
        rfl
      | none =>
        left
        exact hc
    · rw [stringReadLoop_exit _ _ _ _ hc] at h
      simp only [Except.ok.injEq, Prod.mk.injEq] at h
      rcases hinv with hlt | hs
      · exact absurd hlt hc
      · rw [← h.1]
        exact hs

/-- A buffer beginning with the continuation byte `0x80` is never
well-formed UTF-8. -/
theorem utf8Decode_cont_head (l : List Nat) : utf8Decode (128 :: l) = none := by
  simp [utf8Decode, utf8DecodeAux, utf8DecodeOne]

/-- A nonempty run of `0x80` bytes is never well-formed UTF-8. -/
theorem utf8Decode_replicate (j : Nat) :
    utf8Decode (List.replicate (j + 1) 128) = none := by
  rw [List.replicate_succ]
  exact utf8Decode_cont_head _

/-- On the adversarial source, the text read loop is still running
after any number of iterations: the buffer stays a run of `0x80`
bytes, so the UTF-16 count never moves. -/
theorem streamStringLoop_badStream : ∀ (fuel i j : Nat), 1 ≤ i →
    streamStringLoop badStream fuel i (List.replicate j 128) 0 1 = none := by
  intro fuel
  induction fuel with
  | zero => intro i j hi; rfl
  | succ n ih =>
    intro i j hi
    have hb : badStream i = 128 := by
      unfold badStream
      rw [if_neg (by omega)]
    simp only [streamStringLoop, hb]
    rw [if_pos (by norm_num)]
    rw [show List.replicate j 128 ++ [128] = List.replicate (j + 1) 128 from
      (List.replicate_succ' j 128).symm]
    rw [utf8Decode_replicate j]
    exact ih (i + 1) (j + 1) (by omega)

/-! ## Claim theorems -/

/-- C1: the claimed primitive round-trip fails on `bool`: `write true`
emits `0x00` (`u8::from(!self)`), and `read` decodes `0x00` to
`false`, so reading back the written byte yields the negation of the
value for both booleans instead of reconstructing it. -/
theorem bool_roundtrip_negates :
    boolRead (boolWrite true) = .ok (false, []) ∧
    boolRead (boolWrite false) = .ok (true, []) := ⟨rfl, rfl⟩

/-- C2: the claimed VarNum u32 boundary encodings fail on the code:
the terminating branch writes the remaining value through the
four-byte fixed-width u32 codec, so `0` becomes four bytes, `127`
four bytes, `128` five bytes `80 00 00 00 01`, and `u32::MAX` eight
bytes instead of the claimed `00`, `7F`, `80 01`, and five bytes. -/
theorem varnum_write_boundary_bug :
    varnumWriteU32 0 = [0, 0, 0, 0] ∧
    varnumWriteU32 127 = [0, 0, 0, 127] ∧
    varnumWriteU32 128 = [128, 0, 0, 0, 1] ∧
    varnumWriteU32 4294967295 = [255, 255, 255, 255, 0, 0, 0, 15] := by
  refine ⟨?_, ?_, ?_, ?_⟩
  · rw [varnumWriteU32_stop 0 (by decide)]
    decide
  · rw [varnumWriteU32_stop 127 (by decide)]
    decide
  · rw [varnumWriteU32_go 128 (by decide),
      show (128 : Nat) >>> 7 = 1 from by decide,
      varnumWriteU32_stop 1 (by decide)]
    decide
  · rw [varnumWriteU32_go 4294967295 (by decide),
      show (4294967295 : Nat) >>> 7 = 33554431 from by decide,
      varnumWriteU32_go 33554431 (by decide),
      show (33554431 : Nat) >>> 7 = 262143 from by decide,
      varnumWriteU32_go 262143 (by decide),
      show (262143 : Nat) >>> 7 = 2047 from by decide,
      varnumWriteU32_go 2047 (by decide),
      show (2047 : Nat) >>> 7 = 15 from by decide,
      varnumWriteU32_stop 15 (by decide)]
    decide

/-- C3: the UTF-16 length counts are as claimed (5 for "héllo", 2 for
a surrogate-pair scalar), but the round trip fails on the code: the
length prefix is written as the four fixed-width bytes `00 00 00 05`,
the reader decodes the first `00` as VarNum length `0`, and the
decoded string is empty with the rest of the stream unconsumed. -/
theorem text_roundtrip_fails :
    utf16Len helloStr = 5 ∧
    (utf8Encode helloStr).length = 6 ∧
    utf16Len [128512] = 2 ∧
    stringWrite helloStr = [0, 0, 0, 5] ++ utf8Encode helloStr ∧
    stringRead ⟨1, Nat.one_pos⟩ (stringWrite helloStr) =
      .ok ([], [0, 0, 5] ++ utf8Encode helloStr) := by
  have hw : stringWrite helloStr = [0, 0, 0, 5] ++ utf8Encode helloStr := by
    unfold stringWrite
    rw [show utf16Len helloStr % 2 ^ 32 = 5 from by decide,
      varnumWriteU32_stop 5 (by decide)]
    decide
  have hv : varnumReadU32 ([0, 0, 0, 5] ++ utf8Encode helloStr) =
      .ok (0, [0, 0, 5] ++ utf8Encode helloStr) := rfl
  refine ⟨by decide, by decide, by decide, hw, ?_⟩
  rw [hw]
  unfold stringRead
  simp only [hv]
  rw [stringReadLoop_exit _ _ _ _ (show ¬(0 : Nat) < 0 by omega)]
  rfl

/-- C4 counterexample: decoding the byte `0x00` yields `false`, not
`true` as the claim states. -/
theorem bool_read_zero_cex :
    boolRead [0] = .ok (false, []) ∧ false ≠ true := ⟨rfl, by decide⟩

/-- C4 (amended): reading a boolean accepts only the bytes `0x00` and
`0x01`, with `0x00` decoding to `false` and `0x01` decoding to
`true`; any other byte fails with the "bad boolean value" error. -/
theorem bool_read_mapping : ∀ (b : Nat) (rest : List Nat),
    boolRead (b :: rest) =
      if b = 0 then .ok (false, rest)
      else if b = 1 then .ok (true, rest)
      else .error "bad boolean value" := by
  intro b rest
  match b with
  | 0 => rfl
  | 1 => rfl
  | n + 2 => simp [boolRead]

/-- C5: a VarNum decode is bounded: five continuation bytes make the
u32 read fail with "VarInt is too large" (ten for the u64 read and
"VarLong is too large") without reading further, and a successful
decode consumes at most 5 (resp. 10) bytes of the source. -/
theorem varnum_read_bounded :
    (∀ b0 b1 b2 b3 b4 rest,
      (∀ b ∈ [b0, b1, b2, b3, b4], 128 ≤ b ∧ b < 256) →
      varnumReadU32 (b0 :: b1 :: b2 :: b3 :: b4 :: rest) =
        .error "VarInt is too large") ∧
    (∀ src val rest, varnumReadU32 src = .ok (val, rest) →
      ∃ k, k ≤ 5 ∧ rest = src.drop k) ∧
    (∀ b0 b1 b2 b3 b4 b5 b6 b7 b8 b9 rest,
      (∀ b ∈ [b0, b1, b2, b3, b4, b5, b6, b7, b8, b9], 128 ≤ b ∧ b < 256) →
      varnumReadU64
        (b0 :: b1 :: b2 :: b3 :: b4 :: b5 :: b6 :: b7 :: b8 :: b9 :: rest) =
        .error "VarLong is too large") ∧
    (∀ src val rest, varnumReadU64 src = .ok (val, rest) →
      ∃ k, k ≤ 10 ∧ rest = src.drop k) := by
  refine ⟨?_, ?_, ?_, ?_⟩
  · intro b0 b1 b2 b3 b4 rest hb
    exact varnumLoop32_cont_err [b0, b1, b2, b3, b4] rest 0 0 (by omega) hb
      (by simp)
  · intro src val rest h
    obtain ⟨k, hk1, hrest, hbound⟩ :=
      varnumLoop32_ok_drop src 0 0 val rest (by omega) h
    exact ⟨k, by omega, hrest⟩
  · intro b0 b1 b2 b3 b4 b5 b6 b7 b8 b9 rest hb
    exact varnumLoop64_cont_err [b0, b1, b2, b3, b4, b5, b6, b7, b8, b9] rest
      0 0 (by omega) hb (by simp)
  · intro src val rest h
    obtain ⟨k, hk1, hrest, hbound⟩ :=
      varnumLoop64_ok_drop src 0 0 val rest (by omega) h
    exact ⟨k, by omega, hrest⟩

/-- C5 witness: concrete all-continuation sources trigger the two
overflow errors, and a one-byte decode consumes at most five bytes. -/
theorem varnum_read_bounded_witness :
    varnumReadU32 [128, 128, 128, 128, 128] = .error "VarInt is too large" ∧
    varnumReadU64 [128, 128, 128, 128, 128, 128, 128, 128, 128, 128] =
      .error "VarLong is too large" ∧
    (∃ k, k ≤ 5 ∧ ([] : List Nat) = ([0] : List Nat).drop k) := by
  refine ⟨?_, ?_, ?_⟩
  · exact varnum_read_bounded.1 128 128 128 128 128 [] (by decide)
  · exact varnum_read_bounded.2.2.1 128 128 128 128 128 128 128 128 128 128 []
      (by decide)
  · exact varnum_read_bounded.2.1 [0] 0 [] rfl

/-- C6 counterexample: the sequence `80 80 80 80 10` shifts the data
bits of its final group past bit 31 (`0x10 <<< 28 = 2^32`), yet the
u32 decode accepts it and returns `0` — the excess bits are silently
discarded, where the claim requires rejection. -/
theorem varnum_read_truncates_cex :
    varnumReadU32 [128, 128, 128, 128, 16] = .ok (0, []) ∧
    varnumReadU64 [128, 128, 128, 128, 128, 128, 128, 128, 128, 2] =
      .ok (0, []) := ⟨rfl, rfl⟩

/-- C6 (amended): the decoder rejects a sequence whose continuation
bytes alone push the bit offset to the target width, but a final byte
with a clear continuation bit is always accepted: its data bits are
accumulated modulo `2^32` (resp. `2^64`), silently discarding any
bits beyond the width. -/
theorem varnum_read_overflow_amended :
    (∀ b0 b1 b2 b3 b4 rest,
      (∀ b ∈ [b0, b1, b2, b3, b4], 128 ≤ b ∧ b < 256) →
      varnumReadU32 (b0 :: b1 :: b2 :: b3 :: b4 :: rest) =
        .error "VarInt is too large") ∧
    (∀ b rest, b < 128 →
      varnumReadU32 (128 :: 128 :: 128 :: 128 :: b :: rest) =
        .ok (b <<< 28 % 2 ^ 32, rest)) ∧
    (∀ b0 b1 b2 b3 b4 b5 b6 b7 b8 b9 rest,
      (∀ b ∈ [b0, b1, b2, b3, b4, b5, b6, b7, b8, b9], 128 ≤ b ∧ b < 256) →
      varnumReadU64
        (b0 :: b1 :: b2 :: b3 :: b4 :: b5 :: b6 :: b7 :: b8 :: b9 :: rest) =
        .error "VarLong is too large") ∧
    (∀ b rest, b < 128 →
      varnumReadU64
        (128 :: 128 :: 128 :: 128 :: 128 :: 128 :: 128 :: 128 :: 128 :: b :: rest) =
        .ok (b <<< 63 % 2 ^ 64, rest)) := by
  refine ⟨?_, ?_, ?_, ?_⟩
  · intro b0 b1 b2 b3 b4 rest hb
    exact varnumLoop32_cont_err [b0, b1, b2, b3, b4] rest 0 0 (by omega) hb
      (by simp)
  · intro b rest hb
    have hc := land_clear b hb
    have hl := land_low b hb
    simp only [varnumReadU32, varnumReadLoop32, hc, hl,
      show (128 : Nat) &&& 128 = 128 from by decide,
      show (128 : Nat) &&& 127 = 0 from by decide,
      Nat.zero_shiftLeft, Nat.zero_mod, Nat.or_zero, Nat.zero_or]
    norm_num
  · intro b0 b1 b2 b3 b4 b5 b6 b7 b8 b9 rest hb
    exact varnumLoop64_cont_err [b0, b1, b2, b3, b4, b5, b6, b7, b8, b9] rest
      0 0 (by omega) hb (by simp)
  · intro b rest hb
    have hc := land_clear b hb
    have hl := land_low b hb
    simp only [varnumReadU64, varnumReadLoop64, hc, hl,
      show (128 : Nat) &&& 128 = 128 from by decide,
      show (128 : Nat) &&& 127 = 0 from by decide,
      Nat.zero_shiftLeft, Nat.zero_mod, Nat.or_zero, Nat.zero_or]
    norm_num

/-- C6 witness: the amended statement at the concrete inputs of the
counterexample. -/
theorem varnum_read_overflow_amended_witness :
    varnumReadU32 (128 :: 128 :: 128 :: 128 :: 16 :: []) =
      .ok (16 <<< 28 % 2 ^ 32, []) ∧
    varnumReadU64
      (128 :: 128 :: 128 :: 128 :: 128 :: 128 :: 128 :: 128 :: 128 :: 2 :: []) =
      .ok (2 <<< 63 % 2 ^ 64, []) :=
  ⟨varnum_read_overflow_amended.2.1 16 [] (by decide),
    varnum_read_overflow_amended.2.2.2 2 [] (by decide)⟩

/-- C7: every fixed-width numeric codec of `w` bytes emits exactly `w`
bytes, namely the big-endian base-256 digits of the value's bit
pattern; read consumes exactly `w` bytes of any sufficient source and
reconstructs the value, for the unsigned pattern, for any in-range
signed value through two's complement, and for the one-byte `u8`
codec. -/
theorem fixed_width_codec_correct (w v : Nat) (rest : List Nat)
    (hw : 0 < w) (hv : v < 2 ^ (8 * w)) :
    (intWrite w v).length = w ∧
    (∀ i, i < w → (intWrite w v)[i]? = some (v / 256 ^ (w - 1 - i) % 256)) ∧
    intRead w (intWrite w v ++ rest) = .ok (v, rest) ∧
    (∀ src : List Nat, w ≤ src.length →
      intRead w src = .ok (fromBeBytes (src.take w), src.drop w)) ∧
    (∀ z : Int, -(2 ^ (8 * w - 1)) ≤ z → z < 2 ^ (8 * w - 1) →
      sIntRead w (sIntWrite w z ++ rest) = .ok (z, rest)) ∧
    (∀ b rest2, u8Read (u8Write b ++ rest2) = .ok (b, rest2)) := by
  have h256 : (2 : Nat) ^ (8 * w) = 256 ^ w := by
    rw [pow_mul]
    norm_num
  have hv' : v < 256 ^ w := h256 ▸ hv
  refine ⟨toBeBytes_length w v, fun i hi => toBeBytes_getElem w v i hi,
    ?_, ?_, ?_, fun b rest2 => rfl⟩
  · unfold intRead intWrite
    rw [if_pos (by rw [List.length_append, toBeBytes_length]; omega),
      List.take_left' (toBeBytes_length w v),
      List.drop_left' (toBeBytes_length w v), fromBe_toBe w v hv']
  · intro src hsrc
    unfold intRead
    rw [if_pos hsrc]
  · intro z hz1 hz2
    have hpat : toTwos w z < 256 ^ w := by
      have hle : (0 : Int) ≤ z % (2 : Int) ^ (8 * w) :=
        Int.emod_nonneg z (by positivity)
      have hlt : z % (2 : Int) ^ (8 * w) < (2 : Int) ^ (8 * w) :=
        Int.emod_lt_of_pos z (by positivity)
      have hcast : (((256 : Nat) ^ w : Nat) : Int) = (2 : Int) ^ (8 * w) := by
        push_cast
        rw [pow_mul]
        norm_num
      unfold toTwos
      omega
    have hread : intRead w (toBeBytes w (toTwos w z) ++ rest) =
        .ok (toTwos w z, rest) := by
      unfold intRead
      rw [if_pos (by rw [List.length_append, toBeBytes_length]; omega),
        List.take_left' (toBeBytes_length w _),
        List.drop_left' (toBeBytes_length w _), fromBe_toBe w _ hpat]
    unfold sIntRead sIntWrite
    rw [hread]
    show Except.ok (fromTwos w (toTwos w z), rest) = Except.ok (z, rest)
    rw [fromTwos_toTwos w z hw hz1 hz2]

/-- C7 witness: the 4-byte codec at `0x12345678` and the signed
boundary value `i32::MIN`. -/
theorem fixed_width_codec_correct_witness :
    (intWrite 4 305419896).length = 4 ∧
    intRead 4 (intWrite 4 305419896 ++ [9]) = .ok (305419896, [9]) ∧
    sIntRead 4 (sIntWrite 4 (-2147483648) ++ []) = .ok (-2147483648, []) := by
  have h := fixed_width_codec_correct 4 305419896 [9] (by norm_num) (by norm_num)
  have h2 := fixed_width_codec_correct 4 305419896 [] (by norm_num) (by norm_num)
  exact ⟨h.1, h.2.2.1,
    h2.2.2.2.2.1 (-2147483648) (by norm_num) (by norm_num)⟩

/-- C8: the text codec's read result is independent of the `Length`
metadata: for any two metadata values and any source, `String::read`
computes the same outcome, consuming the same bytes — the parameter is
bound by the signature and never used. -/
theorem string_read_ignores_meta :
    ∀ (m1 m2 : Length) (src : List Nat), stringRead m1 src = stringRead m2 src :=
  fun _ _ _ => rfl

/-- C9: on the source whose VarNum prefix decodes to the nonzero
length `1` and which then supplies the non-UTF-8 byte `0x80` forever,
the text read loop is still running after every number of iterations:
no bound on the bytes consumed and no error exit ever fires. -/
theorem string_read_unbounded :
    streamVarnumReadU32 badStream 0 = .ok (1, 1) ∧
    ∀ fuel, streamStringLoop badStream fuel 1 [] 0 1 = none := by
  constructor
  · unfold streamVarnumReadU32 streamVarnumLoop32
    rw [if_pos (by decide)]
    rfl
  · intro fuel
    exact streamStringLoop_badStream fuel 1 0 (by omega)

/-- C10: whenever the accumulation loop of `String::read` exits
normally, the accumulated buffer is valid UTF-8 — the count only
moves after a successful parse of the whole buffer — so the final
conversion cannot fail and the `unwrap` never panics. -/
theorem string_read_loop_utf8 : ∀ (len : Nat) (src res rest : List Nat),
    stringReadLoop src [] 0 len = .ok (res, rest) →
    ∃ s, utf8Decode res = some s := by
  intro len src res rest h
  have hinv : 0 < len ∨ (utf8Decode ([] : List Nat)).isSome := by
    rcases Nat.eq_zero_or_pos len with h0 | hp
    · right
      rfl
    · left
      exact hp
  have hsome := stringReadLoop_inv src [] 0 len res rest hinv h
  exact Option.isSome_iff_exists.mp hsome

/-- C10 witness: the loop with target length `0` exits at once with
the empty buffer, which decodes. -/
theorem string_read_loop_utf8_witness : ∃ s, utf8Decode [] = some s :=
  string_read_loop_utf8 0 [] [] []
    (stringReadLoop_exit [] [] 0 0 (by omega))

end Minimc
